import Mathlib

/-!
Shallow embedding of the sequence-label conversion core of finetune
(src/finetune/utils.py): iob_precedes, the IOB expansion inside
indico_to_finetune_sequence, the per-document span-to-segment loop of
indico_to_finetune_sequence (lines 513-599) and the per-document
segment-to-span loop of finetune_to_indico_sequence (lines 328-418).

Texts and labels are lists of characters. Python integer positions that can
go negative (the search cursor, raw_annotation_start, annotation ends) are
Int; character offsets inside the span-to-segment loop are Nat, with every
Python subtraction that can go below zero modelled as an Int comparison.
Python exceptions (ValueError, KeyError, IndexError, TypeError,
AttributeError) are modelled with Except PyErr.  The external collaborators
are parameters: the tokenizer NLP is a list of token (start, end) offset
pairs, and the sub-token encoder ENCODER is a function from a text to its
sub-token end offsets (encoded.char_locs of one text).
-/

/-- A document text or label string, as its list of characters. -/
abbrev Str := List Char

/-- The Python exceptions the modelled code can raise. -/
inductive PyErr where
  | valueError (msg : String)
  | keyError (k : Str)
  | indexError
  | typeError
  | attributeError
deriving DecidableEq, Repr

/-- Python str whitespace (the ASCII characters str.strip removes). -/
def isPySpace (c : Char) : Bool :=
  c = ' ' ∨ c = '\t' ∨ c = '\n' ∨ c = '\r' ∨ c = '\x0b' ∨ c = '\x0c'

/-- Python s.strip(): remove leading and trailing whitespace. -/
def pyStrip (s : Str) : Str :=
  ((s.dropWhile isPySpace).reverse.dropWhile isPySpace).reverse

/-- Python s[a:b] for nonnegative a, b (out-of-range indices clamp). -/
def pySliceN (s : Str) (a b : Nat) : Str :=
  (s.drop a).take (b - a)

/-- Python s[a:] where a may be negative (negative counts from the end,
clamping at 0, exactly as Python slicing does). -/
def pySliceFrom (s : Str) (a : Int) : Str :=
  if a < 0 then s.drop (((s.length : Int) + a).toNat) else s.drop a.toNat

/-- Python s[a:b] where a and b may be negative. -/
def pySliceInt (s : Str) (a b : Int) : Str :=
  let na : Nat := if a < 0 then ((s.length : Int) + a).toNat else min a.toNat s.length
  let nb : Nat := if b < 0 then ((s.length : Int) + b).toNat else min b.toNat s.length
  (s.drop na).take (nb - na)

/-- Python s[-k:] for k greater than 0 (the last k characters, the whole
string when k exceeds the length). -/
def sliceFromNeg (s : Str) (k : Nat) : Str :=
  s.drop (s.length - k)

/-- Python s[:-k] for k greater than 0 (drop the last k characters). -/
def sliceToNeg (s : Str) (k : Nat) : Str :=
  s.take (s.length - k)

/-- Resolve a Python list index (negative indices count from the end);
none when the index is out of range. -/
def pyIdx (n : Nat) (i : Int) : Option Nat :=
  if 0 ≤ i then (if i < (n : Int) then some i.toNat else none)
  else (if 0 ≤ (n : Int) + i then some (((n : Int) + i).toNat) else none)

/-- Python l[i] with IndexError on out-of-range. -/
def pyGet {α : Type} (l : List α) (i : Int) : Except PyErr α :=
  match pyIdx l.length i with
  | some k =>
    match l[k]? with
    | some x => Except.ok x
    | none => Except.error PyErr.indexError
  | none => Except.error PyErr.indexError

/-- Python l[i] = x with IndexError on out-of-range. -/
def pySet {α : Type} (l : List α) (i : Int) (x : α) : Except PyErr (List α) :=
  match pyIdx l.length i with
  | some k => Except.ok (l.set k x)
  | none => Except.error PyErr.indexError

/-- Insert at a plain position, appending when the position is past the end
(the clamping Python list.insert performs). -/
def insertAt {α : Type} (x : α) : Nat → List α → List α
  | 0, l => x :: l
  | _ + 1, [] => [x]
  | n + 1, a :: l => a :: insertAt x n l

/-- Python l.insert(i, x): negative indices count from the end and clamp
at 0; large indices clamp to the length. Never raises. -/
def pyInsert {α : Type} (l : List α) (i : Int) (x : α) : List α :=
  let pos : Nat := if i < 0 then ((l.length : Int) + i).toNat else i.toNat
  insertAt x pos l

/-- Scan for sub inside s at positions from i upward; -1 when absent.
The fuel argument only bounds the recursion and is always supplied large
enough (one more than the length of s). -/
def pyFindAux (s sub : Str) : Nat → Nat → Int
  | 0, _ => -1
  | fuel + 1, i =>
    if s.length < i + sub.length then -1
    else if (s.drop i).take sub.length = sub then (i : Int)
    else pyFindAux s sub fuel (i + 1)

/-- Python s.find(sub, start): lowest index at or after start where sub
occurs, -1 when absent; a negative start counts from the end of s and
clamps at 0; a start beyond the length gives -1. -/
def pyFind (s sub : Str) (start : Int) : Int :=
  let norm : Nat := if start < 0 then ((s.length : Int) + start).toNat else start.toNat
  if s.length < norm then -1 else pyFindAux s sub (s.length + 1) norm

/-- Python label.split("-", 1): the part before the first dash and the rest,
or none when the string holds no dash (the ValueError case of unpacking). -/
def splitDash : Str → Option (Str × Str)
  | [] => none
  | c :: cs =>
    if c = '-' then some ([], cs)
    else (splitDash cs).map (fun p => (c :: p.1, p.2))

/-- Python "-" in s. -/
def hasDash (s : Str) : Bool := decide ('-' ∈ s)

/-- truncate_text from utils.py (lines 258-261), with the default of 100
characters. -/
def truncate_text (text : Str) : Str :=
  if 100 < text.length then text.take 100 ++ ("...".toList) else text

/-- A span in the indico format: start and end character offsets, a label,
and the optional literal text field of the annotation dict. -/
structure Ann where
  start : Nat
  stop : Nat
  label : Str
  text : Option Str
deriving DecidableEq, Repr

/-- A label of one emitted segment: a plain label when multi_label is off, a
list of labels when it is on (the Python code stores a string or a list). -/
inductive SegLabel where
  | single (s : Str)
  | multi (ss : List Str)
deriving DecidableEq, Repr

/-- A span produced by finetune_to_indico_sequence: offsets are Int because
a failed lookup can make the end offset negative; conf records whether a
confidence entry was attached (its mapping content is opaque here). -/
structure OutAnn where
  start : Int
  stop : Int
  label : Str
  text : Str
  conf : Option Unit
deriving DecidableEq, Repr

/-- is_iob_tagged from utils.py (lines 263-264): label.startswith("IE-"). -/
def is_iob_tagged (label : Str) : Bool :=
  label.take 3 = "IE-".toList

/-- The prefix-to-marker mapping dict inside iob_precedes; none models a
missing key (a KeyError on lookup). -/
def iobMark (s : Str) : Option Str :=
  if s = "B".toList then some ("IE-".toList)
  else if s = "I".toList then some ("IE-".toList)
  else if s = "E".toList then some []
  else none

/-- iob_precedes from utils.py (lines 267-296). left is None or a label.
After right splits on its first dash, every return site evaluates the
mapping at the right prefix, so an unknown prefix is a KeyError on each
path; a right label with no dash is the caught ValueError path. The
final containment test compares equal strings, so it always succeeds. -/
def iob_precedes (left : Option Str) (right : Str) (pad : Str) :
    Except PyErr (Bool × Str) :=
  if left = some pad ∧ right = pad then Except.ok (true, pad)
  else
    match splitDash right with
    | none => Except.ok (false, right)
    | some (rloc, rlab) =>
      match iobMark rloc with
      | none => Except.error (PyErr.keyError rloc)
      | some mark =>
        match left with
        | none => Except.ok (false, mark ++ rlab)
        | some l =>
          if ¬ hasDash l then Except.ok (false, mark ++ rlab)
          else
            match splitDash l with
            | some (_, llab) =>
              if llab ≠ rlab then Except.ok (false, mark ++ rlab)
              else Except.ok (true, mark ++ rlab)
            | none => Except.ok (false, mark ++ rlab)

/-- The IOB expansion inlined in indico_to_finetune_sequence (utils.py
lines 461-510). enc models the external sub-token encoder: it returns
encoded.char_locs of the given text (the sub-token end offsets). A filler
annotation passes through unexpanded; otherwise sub_text is the text field
of the annotation (falling back to the document slice when the field is
absent or empty, the Python or), start_char_locs is 0 consed onto all but
the last encoder offset, and a B-, then an E-, then an I- piece is emitted
according to how many start locations there are. The literal 0 below is
start_char_locs[0], which the code prepends itself. -/
def iobExpandAnn (text : Str) (noneValue : Str) (enc : Str → List Nat)
    (a : Ann) : List Ann :=
  if a.label = noneValue then [a]
  else
    let subText : Str :=
      match a.text with
      | some t => if t = [] then pySliceN text a.start a.stop else t
      | none => pySliceN text a.start a.stop
    let charLocs : List Nat := enc subText
    let startLocs : List Nat := 0 :: charLocs.dropLast
    let bLocs : Nat × Nat :=
      if startLocs.length = 1 then (0, subText.length) else (0, startLocs.getD 1 0)
    let eLocs : Nat × Nat := (startLocs.getLastD 0, subText.length)
    let bPart : List Ann :=
      [⟨a.start + bLocs.1, a.start + bLocs.2, 'B' :: '-' :: a.label,
        some (pySliceN subText bLocs.1 bLocs.2)⟩]
    let ePart : List Ann :=
      if 1 < startLocs.length then
        [⟨a.start + eLocs.1, a.start + eLocs.2, 'E' :: '-' :: a.label,
          some (pySliceN subText eLocs.1 eLocs.2)⟩]
      else []
    let iPart : List Ann :=
      if 2 < startLocs.length then
        [⟨a.start + bLocs.2, a.start + eLocs.1, 'I' :: '-' :: a.label,
          some (pySliceN subText bLocs.2 eLocs.1)⟩]
      else []
    bPart ++ ePart ++ iPart

/-- The whole-sequence IOB preprocessing (new_label_seq of utils.py). -/
def iobExpandSeq (text : Str) (noneValue : Str) (enc : Str → List Nat)
    (labelSeq : List Ann) : List Ann :=
  (labelSeq.map (iobExpandAnn text noneValue enc)).flatten

/-- The filler entry appended for unlabeled stretches: a one-element list in
multi-label mode, the bare none value otherwise (utils.py 532-535). -/
def mkFiller (multiLabel : Bool) (noneValue : Str) : SegLabel :=
  if multiLabel then SegLabel.multi [noneValue] else SegLabel.single noneValue

/-- The start-rounding loop of utils.py 525-526: decrement start while it is
positive and not a token start. -/
def roundStartI (tokenStarts : List Nat) : Nat → Nat
  | 0 => 0
  | s + 1 => if (s + 1) ∈ tokenStarts then s + 1 else roundStartI tokenStarts s

/-- Fueled form of the end-rounding loop of utils.py 527-528: increment end
while it is below the text length and not a token end. -/
def roundEndFuel (tokenEnds : List Nat) (len : Nat) : Nat → Nat → Nat
  | 0, e => e
  | fuel + 1, e =>
    if e < len ∧ e ∉ tokenEnds then roundEndFuel tokenEnds len fuel (e + 1) else e

/-- The end-rounding loop; the fuel len bounds its iteration count. -/
def roundEndI (tokenEnds : List Nat) (len : Nat) (e : Nat) : Nat :=
  roundEndFuel tokenEnds len len e

/-- doc_labels[j].append(label) of the backward walk: appending in place to
a label list; on a plain string label Python would raise AttributeError. -/
def segAppendLbl : SegLabel → Str → Except PyErr SegLabel
  | SegLabel.multi ss, l => Except.ok (SegLabel.multi (ss ++ [l]))
  | SegLabel.single _, _ => Except.error PyErr.attributeError

/-- doc_labels[j][:] + [label] of the overlap split: copy and extend a label
list; on a plain string label Python would raise TypeError. -/
def segCopyConcat : SegLabel → Str → Except PyErr SegLabel
  | SegLabel.multi ss, l => Except.ok (SegLabel.multi (ss ++ [l]))
  | SegLabel.single _, _ => Except.error PyErr.typeError

/-- The backward walk of utils.py 556-559: while split_dist is at least the
length of segment j, append the label to label list j and move j down one.
The list of segments is not modified by the loop. The fuel only bounds the
recursion; each iteration decreases j by one and an out-of-range j is an
IndexError, so the fuel the caller passes is never exhausted. -/
def walkLoop (sq : List Str) (label : Str) :
    Nat → List SegLabel → Int → Nat → Except PyErr (List SegLabel × Int × Nat)
  | 0, _, _, _ => Except.error (PyErr.valueError "walk fuel exhausted")
  | fuel + 1, lb, j, sd =>
    match pyGet sq j with
    | Except.error e => Except.error e
    | Except.ok segJ =>
      if segJ.length ≤ sd then
        match pyGet lb j with
        | Except.error e => Except.error e
        | Except.ok labJ =>
          match segAppendLbl labJ label with
          | Except.error e => Except.error e
          | Except.ok labJ2 =>
            match pySet lb j labJ2 with
            | Except.error e => Except.error e
            | Except.ok lb2 => walkLoop sq label fuel lb2 (j - 1) (sd - segJ.length)
      else Except.ok (lb, j, sd)

/-- The running state of the span-to-segment loop: the emitted segments,
their labels, and the cursor last_loc. -/
structure IFSt where
  subseqs : List Str
  labels : List SegLabel
  lastLoc : Nat
deriving DecidableEq, Repr

/-- One iteration of the annotation loop of indico_to_finetune_sequence
(utils.py 517-589): round to token boundaries unless subtoken_labels or iob,
emit a filler segment for any gap, peel the tail of the previous segment
when this annotation ends inside it, walk backward adding the label to
fully covered segments and split the partially covered one (multi-label
only; an error otherwise), then emit the remaining piece, checking a
supplied text field against the document slice. -/
def annStep (text : Str) (multiLabel subtokenLabels iob : Bool)
    (tokenStarts tokenEnds : List Nat) (noneValue : Str)
    (st : IFSt) (a : Ann) : Except PyErr IFSt :=
  let se : Nat × Nat :=
    if ¬ subtokenLabels ∧ ¬ iob ∧ a.label ≠ noneValue then
      (roundStartI tokenStarts a.start, roundEndI tokenEnds text.length a.stop)
    else (a.start, a.stop)
  let start1 := se.1
  let end1 := se.2
  let sqlb1 : List Str × List SegLabel :=
    if st.lastLoc < start1 then
      (st.subseqs ++ [pySliceN text st.lastLoc start1],
       st.labels ++ [mkFiller multiLabel noneValue])
    else (st.subseqs, st.labels)
  let sq1 := sqlb1.1
  let lb1 := sqlb1.2
  let j0 : Int := (lb1.length : Int) - 1
  let peeled : Except PyErr (List Str × List SegLabel × Int × Nat) :=
    if end1 < st.lastLoc then
      let sdn : Nat := st.lastLoc - end1
      match pyGet sq1 (-1) with
      | Except.error e => Except.error e
      | Except.ok lastSeg =>
        let step2 : Except PyErr (List Str × List SegLabel × Int) :=
          if lastSeg.length ≠ sdn then
            match pySet sq1 (-1) (sliceToNeg lastSeg sdn) with
            | Except.error e => Except.error e
            | Except.ok sqA =>
              match pyGet lb1 (-1) with
              | Except.error e => Except.error e
              | Except.ok lastLab =>
                Except.ok (sqA ++ [sliceFromNeg lastSeg sdn], lb1 ++ [lastLab], j0 - 2)
          else Except.ok (sq1, lb1, j0 - 1)
        match step2 with
        | Except.error e => Except.error e
        | Except.ok (sq2, lb2, j1) =>
          match pyGet sq2 (-1) with
          | Except.error e => Except.error e
          | Except.ok newLast => Except.ok (sq2, lb2, j1, newLast.length)
    else Except.ok (sq1, lb1, j0, 0)
  match peeled with
  | Except.error e => Except.error e
  | Except.ok (sq2, lb2, j1, skipEnd) =>
    let overlapRes : Except PyErr (List Str × List SegLabel × Nat × Option Str) :=
      if (start1 : Int) < (st.lastLoc : Int) - (skipEnd : Int) then
        if ¬ multiLabel then
          Except.error
            (PyErr.valueError "Overlapping annotations requires the multi-label model")
        else
          let sd0 : Nat := st.lastLoc - start1 - skipEnd
          match walkLoop sq2 a.label (j1.natAbs + sq2.length + 2) lb2 j1 sd0 with
          | Except.error e => Except.error e
          | Except.ok (lbW, jW, sdW) =>
            let inserted : Except PyErr (List Str × List SegLabel) :=
              if 0 < sdW then
                match pyGet sq2 jW with
                | Except.error e => Except.error e
                | Except.ok segJ =>
                  match pySet sq2 jW (sliceToNeg segJ sdW) with
                  | Except.error e => Except.error e
                  | Except.ok sqA =>
                    match pyGet lbW jW with
                    | Except.error e => Except.error e
                    | Except.ok labJ =>
                      match segCopyConcat labJ a.label with
                      | Except.error e => Except.error e
                      | Except.ok labNew =>
                        Except.ok (pyInsert sqA (jW + 1) (sliceFromNeg segJ sdW),
                                   pyInsert lbW (jW + 1) labNew)
              else Except.ok (sq2, lbW)
            match inserted with
            | Except.error e => Except.error e
            | Except.ok (sq3, lb3) =>
              match a.text with
              | none => Except.error PyErr.typeError
              | some t =>
                Except.ok (sq3, lb3, st.lastLoc,
                           some (pySliceFrom t ((st.lastLoc : Int) - (end1 : Int))))
      else Except.ok (sq2, lb2, start1, a.text)
    match overlapRes with
    | Except.error e => Except.error e
    | Except.ok (sq3, lb3, start2, annText2) =>
      if end1 ≤ start2 then
        Except.ok ⟨sq3, lb3, max start2 end1⟩
      else
        let sq4 := sq3 ++ [pySliceN text start2 end1]
        let lb4 := lb3 ++
          [if multiLabel then SegLabel.multi [a.label] else SegLabel.single a.label]
        match annText2 with
        | some t =>
          if ¬ iob ∧ pySliceN text start2 end1 ≠ t then
            Except.error (PyErr.valueError
              "Annotation text does not match text specified by start and end indexes")
          else Except.ok ⟨sq4, lb4, end1⟩
        | none => Except.ok ⟨sq4, lb4, end1⟩

/-- Stable insertion of an annotation by start offset (an element is placed
after all entries whose start is not greater). -/
def insertByStart (x : Ann) : List Ann → List Ann
  | [] => [x]
  | y :: ys => if y.start ≤ x.start then y :: insertByStart x ys else x :: y :: ys

/-- Stable sort by start offset, the behaviour of Python sorted with the
start key: each element is inserted after the already placed elements of
the same start (stable sorts agree on their output, so insertion sort
models sorted exactly). -/
def sortByStart (l : List Ann) : List Ann :=
  l.foldl (fun acc x => insertByStart x acc) []

/-- The per-document body of indico_to_finetune_sequence (utils.py 457-598).
tokens are the (start, end) character offsets the external tokenizer NLP
produced for this text; enc is the external sub-token encoder. The result
pairs doc_subseqs with doc_labels. -/
def indico_to_finetune_sequence_doc (text : Str) (labelSeq : List Ann)
    (multiLabel subtokenLabels iob : Bool) (tokens : List (Nat × Nat))
    (noneValue : Str) (enc : Str → List Nat) :
    Except PyErr (List Str × List SegLabel) :=
  let tokenStarts := tokens.map Prod.fst
  let tokenEnds := tokens.map Prod.snd
  let seq1 := if iob then iobExpandSeq text noneValue enc labelSeq else labelSeq
  let seq2 := sortByStart seq1
  match seq2.foldlM
      (annStep text multiLabel subtokenLabels iob tokenStarts tokenEnds noneValue)
      ⟨[], [], 0⟩ with
  | Except.error e => Except.error e
  | Except.ok fin =>
    if fin.lastLoc ≠ text.length then
      Except.ok (fin.subseqs ++ [text.drop fin.lastLoc],
                 fin.labels ++ [mkFiller multiLabel noneValue])
    else Except.ok (fin.subseqs, fin.labels)

/-- Python new_label or label: the stored label falls back to the raw one
when new_label is None or empty (both falsy). -/
def pyOr (nl : Option Str) (l : Str) : Str :=
  match nl with
  | none => l
  | some v => if v = [] then l else v

/-- The open-span merge loop of finetune_to_indico_sequence (utils.py
357-365): scan doc_annotations in order; join is decided by iob_precedes in
iob mode and by label equality otherwise; on the first item that joins and
whose end is within one character before the cursor, the cursor moves to
that item's start and the item is popped. The returned option is new_label,
the value computed at the last visited item (or none when no item was
visited). -/
def mergeLoop (iob : Bool) (noneValue label : Str) (cursor : Int) :
    List OutAnn → Except PyErr (Int × List OutAnn × Option Str)
  | [] => Except.ok (cursor, [], none)
  | item :: rest =>
    match (if iob then iob_precedes (some item.label) label noneValue
           else Except.ok (item.label = label, label)) with
    | Except.error e => Except.error e
    | Except.ok (join, nl) =>
      if join ∧ cursor - item.stop ≤ 1 then
        Except.ok (item.start, rest, some nl)
      else
        match mergeLoop iob noneValue label cursor rest with
        | Except.error e => Except.error e
        | Except.ok (c, rest2, nl2) =>
          Except.ok (c, item :: rest2, some (nl2.getD nl))

/-- The start-index advance of utils.py 387-388: while start_idx is in range
and the annotation start is at or past the token start, advance. The fuel
bounds the recursion and the caller passes more than the list length. -/
def advSiFuel (tokenStarts : List Int) (aStart : Int) : Nat → Nat → Nat
  | 0, si => si
  | fuel + 1, si =>
    match tokenStarts[si]? with
    | some v => if v ≤ aStart then advSiFuel tokenStarts aStart fuel (si + 1) else si
    | none => si

/-- The end-index advance of utils.py 390-391: while end_idx is below the
token count minus one and the annotation end is past the token end,
advance. -/
def advEiFuel (tokenEnds : List Int) (aEnd : Int) : Nat → Nat → Nat
  | 0, ei => ei
  | fuel + 1, ei =>
    if ei + 1 < tokenEnds.length then
      match tokenEnds[ei]? with
      | some v => if v < aEnd then advEiFuel tokenEnds aEnd fuel (ei + 1) else ei
      | none => ei
    else ei

/-- The running state of the segment-to-span loop: the open annotations
(doc_annotations), the recorded dedup keys (annotation_ranges), the search
cursor (raw_annotation_start), the persistent token indexes start_idx and
end_idx, and the warnings emitted so far. -/
structure FESt where
  anns : List OutAnn
  ranges : List (Int × Int × Str)
  cursor : Int
  si : Nat
  ei : Nat
  warns : List Str
deriving DecidableEq, Repr

/-- One iteration of the inner label loop of finetune_to_indico_sequence
(utils.py 347-409): locate the stripped segment text from the cursor, try
to merge into an open annotation, warn and skip when the lookup failed
(the cursor variable then holds -1), optionally round to token boundaries,
and record the annotation unless its raw (start, end, label) key was
already recorded. -/
def labelStep (rawText : Str) (noneValue : Str)
    (subtokenPredictions iob : Bool) (tokenStarts tokenEnds : List Int)
    (multiLabel : Bool) (conf : Option Unit) (subStr : Str)
    (st : FESt) (label : Str) : Except PyErr FESt :=
  let stripped := pyStrip subStr
  let c1 : Int := pyFind rawText stripped st.cursor
  let cEnd : Int := c1 + stripped.length
  match (if label ≠ noneValue then mergeLoop iob noneValue label c1 st.anns
         else Except.ok (c1, st.anns, none)) with
  | Except.error e => Except.error e
  | Except.ok (c2, anns2, nl0) =>
    match (if iob ∧ anns2.length = 0 then
             match iob_precedes none label noneValue with
             | Except.error e => Except.error e
             | Except.ok (_, nl) => Except.ok (some nl)
           else Except.ok nl0) with
    | Except.error e => Except.error e
    | Except.ok nl1 =>
      if c2 = -1 then
        Except.ok
          { st with
            cursor := c2, anns := anns2,
            warns := st.warns ++ [truncate_text stripped] }
      else
        match (if ¬ subtokenPredictions ∧ (¬ iob ∨ ¬ is_iob_tagged (pyOr nl1 label)) then
                 let si0 : Nat := if multiLabel then 0 else st.si
                 let ei0 : Nat := if multiLabel then 0 else st.ei
                 if label ≠ noneValue then
                   let si1 := advSiFuel tokenStarts c2 (tokenStarts.length + 1) si0
                   match pyGet tokenStarts ((si1 : Int) - 1) with
                   | Except.error e => Except.error e
                   | Except.ok aS =>
                     let ei1 := advEiFuel tokenEnds cEnd (tokenEnds.length + 1) ei0
                     match pyGet tokenEnds (ei1 : Int) with
                     | Except.error e => Except.error e
                     | Except.ok aE => Except.ok (aS, aE, si1, ei1)
                 else Except.ok (c2, cEnd, si0, ei0)
               else Except.ok (c2, cEnd, st.si, st.ei)) with
      | Except.error e => Except.error e
      | Except.ok (aStart, aEnd, si2, ei2) =>
        let textSlice := pySliceInt rawText aStart aEnd
        if label ≠ noneValue then
          if (aStart, aEnd, label) ∈ st.ranges then
            Except.ok
              { anns := anns2, ranges := st.ranges, cursor := c2,
                si := si2, ei := ei2, warns := st.warns }
          else
            Except.ok
              { anns := anns2 ++ [⟨aStart, aEnd, pyOr nl1 label, textSlice, conf⟩],
                ranges := st.ranges ++ [(aStart, aEnd, label)], cursor := c2,
                si := si2, ei := ei2, warns := st.warns }
        else
          Except.ok
            { anns := anns2, ranges := st.ranges, cursor := c2,
              si := si2, ei := ei2, warns := st.warns }

/-- One segment of the outer loop (utils.py 339-345): a tuple label means
multi_label with one inner iteration per member; any other label value is a
single-label list. -/
def segStep (rawText : Str) (noneValue : Str)
    (subtokenPredictions iob : Bool) (tokenStarts tokenEnds : List Int)
    (st : FESt) (x : Str × SegLabel × Option Unit) : Except PyErr FESt :=
  match x.2.1 with
  | SegLabel.single s =>
    labelStep rawText noneValue subtokenPredictions iob tokenStarts tokenEnds
      false x.2.2 x.1 st s
  | SegLabel.multi ss =>
    ss.foldlM
      (labelStep rawText noneValue subtokenPredictions iob tokenStarts tokenEnds
        true x.2.2 x.1) st

/-- The IE- marker strip applied per document in iob mode (utils.py
411-414): label.split("-", 1)[-1] when the label starts with IE-. -/
def stripIE (a : OutAnn) : OutAnn :=
  if is_iob_tagged a.label then
    match splitDash a.label with
    | some p => { a with label := p.2 }
    | none => a
  else a

/-- Stable insertion of an output span by start offset. -/
def insertOutByStart (x : OutAnn) : List OutAnn → List OutAnn
  | [] => [x]
  | y :: ys => if y.start ≤ x.start then y :: insertOutByStart x ys else x :: y :: ys

/-- Stable sort of output spans by start offset (the final sorted of
utils.py 417). -/
def sortOutByStart (l : List OutAnn) : List OutAnn :=
  l.foldl (fun acc x => insertOutByStart x acc) []

/-- The per-document body of finetune_to_indico_sequence (utils.py 328-418):
zip the segments with their labels and optional confidences (an absent or
empty probability list is replaced by Nones, and zip truncates to the
shortest input), run the label loop, strip IE- markers in iob mode, and
sort the result by start. The result pairs doc_annotations with the
warnings emitted. tokens are the (start, end) offsets of the external
tokenizer NLP for this text. -/
def finetune_to_indico_sequence_doc (rawText : Str) (docSeq : List Str)
    (labelSeq : List SegLabel) (probSeq : Option (List (Option Unit)))
    (noneValue : Str) (subtokenPredictions iob : Bool)
    (tokens : List (Int × Int)) : Except PyErr (List OutAnn × List Str) :=
  let tokenStarts := tokens.map Prod.fst
  let tokenEnds := tokens.map Prod.snd
  let probs : List (Option Unit) :=
    match probSeq with
    | none => List.replicate docSeq.length none
    | some ps => if ps = [] then List.replicate docSeq.length none else ps
  let triples := docSeq.zip (labelSeq.zip probs)
  match triples.foldlM
      (segStep rawText noneValue subtokenPredictions iob tokenStarts tokenEnds)
      ⟨[], [], 0, 0, 0, []⟩ with
  | Except.error e => Except.error e
  | Except.ok st =>
    let anns1 := if iob then st.anns.map stripIE else st.anns
    Except.ok (sortOutByStart anns1, st.warns)

deriving instance DecidableEq for Except

/-- Claim C1 (code bug witness): on the document abcdef with the valid,
sorted annotations (0,2,A), (2,6,B), (3,4,Y) and multi_label on, the
span-to-segment conversion returns segments whose concatenation is fabcde,
not the document text: the nested-overlap walk miscomputes its index and
inserts the split-off piece at the front of the segment list. -/
theorem C1_coverage_violated_at_nested_overlap :
    indico_to_finetune_sequence_doc ("abcdef".toList)
      [⟨0, 2, "A".toList, some ("ab".toList)⟩,
       ⟨2, 6, "B".toList, some ("cdef".toList)⟩,
       ⟨3, 4, "Y".toList, some ("d".toList)⟩]
      true true false [] ("<PAD>".toList) (fun _ => []) =
      Except.ok (["f".toList, "ab".toList, "cd".toList, "e".toList],
        [SegLabel.multi ["B".toList, "Y".toList], SegLabel.multi ["A".toList],
         SegLabel.multi ["B".toList], SegLabel.multi ["B".toList]]) ∧
    (["f".toList, "ab".toList, "cd".toList, "e".toList] : List Str).flatten ≠
      "abcdef".toList := by
  decide

/-- Claim C2 (code bug witness): converting the single span (2,4,X) of the
document abab to segments and back does not return the span: the
segment-to-span search cursor stays at the start of the text found for the
filler segment, so the X segment is located at offset 0 and the recovered
span is (0,2,X). -/
theorem C2_roundtrip_fails_on_repeated_text :
    indico_to_finetune_sequence_doc ("abab".toList) [⟨2, 4, "X".toList, none⟩]
      false true false [] ("<PAD>".toList) (fun _ => []) =
      Except.ok (["ab".toList, "ab".toList],
        [SegLabel.single ("<PAD>".toList), SegLabel.single ("X".toList)]) ∧
    finetune_to_indico_sequence_doc ("abab".toList) ["ab".toList, "ab".toList]
      [SegLabel.single ("<PAD>".toList), SegLabel.single ("X".toList)]
      none ("<PAD>".toList) true false [] =
      Except.ok ([⟨0, 2, "X".toList, "ab".toList, none⟩], []) ∧
    [(⟨0, 2, "X".toList, "ab".toList, none⟩ : OutAnn)] ≠
      [(⟨2, 4, "X".toList, "ab".toList, none⟩ : OutAnn)] := by
  decide

/-- Claim C4: for the document with the two overlapping annotations
(0,10,X) and (5,15,Y) and multi_label on, the segment covering characters
5 to 10 carries exactly the labels X then Y. -/
theorem C4_overlap_segment_carries_both_labels :
    indico_to_finetune_sequence_doc ("abcdefghijklmno".toList)
      [⟨0, 10, "X".toList, some ("abcdefghij".toList)⟩,
       ⟨5, 15, "Y".toList, some ("fghijklmno".toList)⟩]
      true true false [] ("<PAD>".toList) (fun _ => []) =
      Except.ok ([pySliceN ("abcdefghijklmno".toList) 0 5,
                  pySliceN ("abcdefghijklmno".toList) 5 10,
                  pySliceN ("abcdefghijklmno".toList) 10 15],
        [SegLabel.multi ["X".toList], SegLabel.multi ["X".toList, "Y".toList],
         SegLabel.multi ["Y".toList]]) := by
  decide

/-- Claim C5 (counterexample): a segment whose text is not found does not
leave the search cursor unchanged; the cursor variable is assigned the find
result -1. Here the cursor starts at 0, the lookup of zz in ab fails, and
the returned state carries cursor -1, not 0. -/
theorem C5_failed_lookup_rewrites_cursor :
    labelStep ("ab".toList) ("<PAD>".toList) true false [] [] false none
      ("zz".toList) ⟨[], [], 0, 0, 0, []⟩ ("X".toList) =
      Except.ok ⟨[], [], -1, 0, 0, ["zz".toList]⟩ ∧ (-1 : Int) ≠ 0 := by
  decide

/-- Claim C6 (counterexample): the empty document with zero annotations
yields zero segments, not exactly one filler segment. -/
theorem C6_empty_text_yields_no_segments :
    indico_to_finetune_sequence_doc [] [] true true false [] ("<PAD>".toList)
      (fun _ => []) = Except.ok ([], []) ∧ ([] : List Str).length ≠ 1 := by
  decide

/-- Claim C9 (counterexample): with iob on, the raw labels X and B-X on two
copies of the same located text pass the raw-key dedup but are stored as X
and IE-X, and the final IE- strip maps both to X: the output holds two
entries with the identical triple (0, 2, X). -/
theorem C9_duplicate_triples_after_iob_strip :
    finetune_to_indico_sequence_doc ("ab".toList) ["ab".toList, "ab".toList]
      [SegLabel.single ("X".toList), SegLabel.single ("B-X".toList)]
      none ("<PAD>".toList) true true [] =
      Except.ok ([⟨0, 2, "X".toList, "ab".toList, none⟩,
                  ⟨0, 2, "X".toList, "ab".toList, none⟩], []) ∧
    ¬ ([(⟨0, 2, "X".toList, "ab".toList, none⟩ : OutAnn),
        ⟨0, 2, "X".toList, "ab".toList, none⟩].Pairwise
        (fun a b => (a.start, a.stop, a.label) ≠ (b.start, b.stop, b.label))) := by
  decide

/-- Claim C3: for every document text, converting the overlapping
annotations (0,10,X) and (5,15,Y) with multi_label off raises the
input-integrity ValueError and aborts the conversion of the document. -/
theorem C3_overlap_without_multilabel_raises (text : Str)
    (tokens : List (Nat × Nat)) (noneValue : Str) (enc : Str → List Nat) :
    indico_to_finetune_sequence_doc text
      [⟨0, 10, "X".toList, none⟩, ⟨5, 15, "Y".toList, none⟩]
      false true false tokens noneValue enc =
      Except.error (PyErr.valueError
        "Overlapping annotations requires the multi-label model") := by
  simp [indico_to_finetune_sequence_doc, sortByStart, insertByStart, annStep,
        List.foldlM, mkFiller, Bind.bind, Except.bind]

/-- In non-iob mode the merge scan over open spans whose labels all differ
from the incoming label pops nothing, keeps the cursor, and leaves
new_label at the value of the last visited item. -/
theorem mergeLoop_noMatch (nv lbl : Str) (c : Int) (anns : List OutAnn)
    (h : ∀ a ∈ anns, a.label ≠ lbl) :
    mergeLoop false nv lbl c anns =
      Except.ok (c, anns, if anns = [] then none else some lbl) := by
  induction anns with
  | nil => rfl
  | cons item rest ih =>
    have hi : item.label ≠ lbl := h item (by simp)
    have hrest : ∀ a ∈ rest, a.label ≠ lbl := fun a ha => h a (by simp [ha])
    simp only [mergeLoop, hi, ih hrest]
    cases rest <;> simp [hi]

/-- Claim C5 (amended): when the stripped segment text is not found at or
after the cursor and no open span joins with the label (the label is the
filler or no open span carries it), the step succeeds, records nothing,
emits one warning, and leaves the cursor holding the find result -1 (not
the prior cursor value). Non-iob mode. -/
theorem C5_lookup_miss_amended (rawText nv : Str) (subtok ml : Bool)
    (ts te : List Int) (conf : Option Unit) (subStr lbl : Str) (st : FESt)
    (hfind : pyFind rawText (pyStrip subStr) st.cursor = -1)
    (hnj : lbl = nv ∨ ∀ a ∈ st.anns, a.label ≠ lbl) :
    labelStep rawText nv subtok false ts te ml conf subStr st lbl =
      Except.ok
        { st with
          cursor := -1,
          warns := st.warns ++ [truncate_text (pyStrip subStr)] } := by
  rcases hnj with hl | hnm
  · subst hl
    simp [labelStep, hfind]
  · by_cases hl : lbl = nv
    · subst hl
      simp [labelStep, hfind]
    · simp [labelStep, hfind, hl, mergeLoop_noMatch nv lbl (-1) st.anns hnm]

/-- Concrete instance discharging the hypotheses of the amended claim C5. -/
theorem C5_lookup_miss_amended_witness :
    pyFind ("ab".toList) (pyStrip ("zz".toList)) (0 : Int) = -1 ∧
    labelStep ("ab".toList) ("<PAD>".toList) true false [] [] false none
      ("zz".toList) ⟨[], [], 0, 0, 0, []⟩ ("X".toList) =
      Except.ok ⟨[], [], -1, 0, 0, [truncate_text (pyStrip ("zz".toList))]⟩ :=
  ⟨by decide,
   C5_lookup_miss_amended ("ab".toList) ("<PAD>".toList) true false [] [] none
     ("zz".toList) ("X".toList) ⟨[], [], 0, 0, 0, []⟩ (by decide)
     (Or.inr (by simp))⟩

/-- A segment label that carries only the filler value. -/
def fillerOnly (noneValue : Str) : SegLabel → Prop
  | SegLabel.single s => s = noneValue
  | SegLabel.multi ss => ∀ s ∈ ss, s = noneValue

theorem labelStep_filler (rawText nv : Str) (subtok : Bool) (ts te : List Int)
    (ml : Bool) (conf : Option Unit) (subStr : Str) (st : FESt) :
    ∃ st' : FESt, labelStep rawText nv subtok false ts te ml conf subStr st nv =
      Except.ok st' ∧ st'.anns = st.anns := by
  simp only [labelStep]
  simp only [ne_eq, not_true_eq_false, Bool.false_eq_true, false_and, if_false, reduceIte]
  split
  · exact ⟨_, rfl, rfl⟩
  · split
    · rename_i e heq
      split at heq <;> simp_all
    · exact ⟨_, rfl, rfl⟩

theorem labelFold_filler (rawText nv : Str) (subtok : Bool) (ts te : List Int)
    (conf : Option Unit) (subStr : Str) :
    ∀ (ls : List Str), (∀ l ∈ ls, l = nv) → ∀ st : FESt,
      ∃ st', ls.foldlM (labelStep rawText nv subtok false ts te true conf subStr) st =
        Except.ok st' ∧ st'.anns = st.anns := by
  intro ls
  induction ls with
  | nil => exact fun _ st => ⟨st, rfl, rfl⟩
  | cons a as ih =>
    intro hall st
    have ha : a = nv := hall a (by simp)
    obtain ⟨st1, hstep, hanns⟩ :=
      labelStep_filler rawText nv subtok ts te true conf subStr st
    obtain ⟨st2, h2, h2a⟩ := ih (fun l hl => hall l (by simp [hl])) st1
    refine ⟨st2, ?_, by rw [h2a, hanns]⟩
    rw [List.foldlM_cons, ha, hstep]
    simpa using h2

theorem segStep_filler (rawText nv : Str) (subtok : Bool) (ts te : List Int)
    (x : Str × SegLabel × Option Unit) (hx : fillerOnly nv x.2.1) (st : FESt) :
    ∃ st', segStep rawText nv subtok false ts te st x = Except.ok st' ∧
      st'.anns = st.anns := by
  obtain ⟨s1, lab, cf⟩ := x
  cases lab with
  | single s =>
    have hs : s = nv := hx
    simpa [segStep, hs] using labelStep_filler rawText nv subtok ts te false cf s1 st
  | multi ss =>
    simpa [segStep] using labelFold_filler rawText nv subtok ts te cf s1 ss hx st

theorem segFold_filler (rawText nv : Str) (subtok : Bool) (ts te : List Int) :
    ∀ (l : List (Str × SegLabel × Option Unit)),
      (∀ x ∈ l, fillerOnly nv x.2.1) → ∀ st : FESt,
      ∃ st', l.foldlM (segStep rawText nv subtok false ts te) st = Except.ok st' ∧
        st'.anns = st.anns := by
  intro l
  induction l with
  | nil => exact fun _ st => ⟨st, rfl, rfl⟩
  | cons x xs ih =>
    intro hall st
    obtain ⟨st1, hstep, hanns⟩ :=
      segStep_filler rawText nv subtok ts te x (hall x (by simp)) st
    obtain ⟨st2, h2, h2a⟩ := ih (fun y hy => hall y (by simp [hy])) st1
    refine ⟨st2, ?_, by rw [h2a, hanns]⟩
    rw [List.foldlM_cons, hstep]
    simpa using h2

theorem indico_doc_no_anns (text : Str) (ml stl iob : Bool)
    (tokens : List (Nat × Nat)) (nv : Str) (enc : Str → List Nat) (h : text ≠ []) :
    indico_to_finetune_sequence_doc text [] ml stl iob tokens nv enc =
      Except.ok ([text], [mkFiller ml nv]) := by
  have h0 : (0 : Nat) ≠ text.length := by
    intro hh
    exact h (List.length_eq_zero.mp hh.symm)
  simp [indico_to_finetune_sequence_doc, iobExpandSeq, sortByStart, h0, pure, Except.pure]

theorem f2i_filler_only_doc (rawText : Str) (docSeq : List Str)
    (labelSeq : List SegLabel) (probSeq : Option (List (Option Unit)))
    (nv : Str) (subtok : Bool) (tokens : List (Int × Int))
    (hf : ∀ x ∈ labelSeq, fillerOnly nv x) :
    ∃ warns, finetune_to_indico_sequence_doc rawText docSeq labelSeq probSeq nv
      subtok false tokens = Except.ok ([], warns) := by
  have hmem : ∀ (ps2 : List (Option Unit)) (x : Str × SegLabel × Option Unit),
      x ∈ docSeq.zip (labelSeq.zip ps2) → fillerOnly nv x.2.1 := by
    intro ps2 x hx
    obtain ⟨a, b, c⟩ := x
    exact hf b (List.of_mem_zip (List.of_mem_zip hx).2).1
  obtain ⟨st, hfold, hanns⟩ := segFold_filler rawText nv subtok
    (tokens.map Prod.fst) (tokens.map Prod.snd) _ (fun x hx => hmem _ x hx)
    ⟨[], [], 0, 0, 0, []⟩
  refine ⟨st.warns, ?_⟩
  simp only [finetune_to_indico_sequence_doc]
  rw [hfold]
  simp [hanns, sortOutByStart]

/-- Claim C6 (amended): a document with a nonempty text and zero annotations
yields exactly one segment, the whole text carrying the filler label (the
empty text yields zero segments, which forced the nonempty amendment); and
the segment-to-span conversion in non-iob mode applied to any filler-only
labelled segments yields zero span annotations. -/
theorem C6_filler_completeness_amended :
    (∀ (text : Str) (ml stl iob : Bool) (tokens : List (Nat × Nat)) (nv : Str)
        (enc : Str → List Nat), text ≠ [] →
        indico_to_finetune_sequence_doc text [] ml stl iob tokens nv enc =
          Except.ok ([text], [mkFiller ml nv])) ∧
    (∀ (rawText : Str) (docSeq : List Str) (labelSeq : List SegLabel)
        (probSeq : Option (List (Option Unit))) (nv : Str) (subtok : Bool)
        (tokens : List (Int × Int)), (∀ x ∈ labelSeq, fillerOnly nv x) →
        ∃ warns, finetune_to_indico_sequence_doc rawText docSeq labelSeq probSeq
            nv subtok false tokens = Except.ok ([], warns)) :=
  ⟨indico_doc_no_anns, f2i_filler_only_doc⟩

/-- Concrete instance discharging the hypotheses of amended claim C6. -/
theorem C6_filler_completeness_amended_witness :
    ("abc".toList ≠ []) ∧
    indico_to_finetune_sequence_doc ("abc".toList) [] true true false []
      ("<PAD>".toList) (fun _ => []) =
      Except.ok (["abc".toList], [mkFiller true ("<PAD>".toList)]) ∧
    (∀ x ∈ [SegLabel.single ("<PAD>".toList)], fillerOnly ("<PAD>".toList) x) ∧
    (∃ warns, finetune_to_indico_sequence_doc ("abc".toList) ["abc".toList]
        [SegLabel.single ("<PAD>".toList)] none ("<PAD>".toList) true false [] =
        Except.ok ([], warns)) :=
  ⟨by decide,
   C6_filler_completeness_amended.1 ("abc".toList) true true false []
     ("<PAD>".toList) (fun _ => []) (by decide),
   by
     intro x hx
     rw [List.mem_singleton] at hx
     subst hx
     rfl,
   C6_filler_completeness_amended.2 ("abc".toList) ["abc".toList]
     [SegLabel.single ("<PAD>".toList)] none ("<PAD>".toList) true []
     (by
       intro x hx
       rw [List.mem_singleton] at hx
       subst hx
       rfl)⟩

/-- Splitting on the first dash of a dash-free prefix followed by a dash
recovers the two parts. -/
theorem splitDash_append (l1 l2 : Str) (h : '-' ∉ l1) :
    splitDash (l1 ++ '-' :: l2) = some (l1, l2) := by
  induction l1 with
  | nil => simp [splitDash]
  | cons c cs ih =>
    have hc : c ≠ '-' := fun hh => h (by simp [hh])
    have hcs : '-' ∉ cs := fun hh => h (by simp [hh])
    simp [splitDash, hc, ih hcs]

/-- A label with no dash does not split (the ValueError path). -/
theorem splitDash_eq_none (s : Str) (h : '-' ∉ s) : splitDash s = none := by
  induction s with
  | nil => rfl
  | cons c cs ih =>
    have hc : c ≠ '-' := fun hh => h (by simp [hh])
    have hcs : '-' ∉ cs := fun hh => h (by simp [hh])
    simp [splitDash, hc, ih hcs]

/-- Claim C8: for labels sharing one base, with the right prefix B, I or E,
iob_precedes joins, mapping B- and I- to the open marker IE- on the base
and dropping the marker exactly on E- (the bare base results). The left
prefix is any dash-free string; the filler is dash-free (it is a reserved
token). -/
theorem C8_same_base_joins (locL base pad : Str)
    (hL : '-' ∉ locL) (hpad : '-' ∉ pad) :
    iob_precedes (some (locL ++ '-' :: base)) ('B' :: '-' :: base) pad =
      Except.ok (true, "IE-".toList ++ base) ∧
    iob_precedes (some (locL ++ '-' :: base)) ('I' :: '-' :: base) pad =
      Except.ok (true, "IE-".toList ++ base) ∧
    iob_precedes (some (locL ++ '-' :: base)) ('E' :: '-' :: base) pad =
      Except.ok (true, base) := by
  have hdl : hasDash (locL ++ '-' :: base) = true := by simp [hasDash]
  have hB : ('B' :: '-' :: base) ≠ pad := fun hh => hpad (hh ▸ (by simp))
  have hI : ('I' :: '-' :: base) ≠ pad := fun hh => hpad (hh ▸ (by simp))
  have hE : ('E' :: '-' :: base) ≠ pad := fun hh => hpad (hh ▸ (by simp))
  have hsp : splitDash (locL ++ '-' :: base) = some (locL, base) :=
    splitDash_append locL base hL
  have hspB : splitDash ('B' :: '-' :: base) = some (['B'], base) := by
    simp [splitDash]
  have hspI : splitDash ('I' :: '-' :: base) = some (['I'], base) := by
    simp [splitDash]
  have hspE : splitDash ('E' :: '-' :: base) = some (['E'], base) := by
    simp [splitDash]
  refine ⟨?_, ?_, ?_⟩ <;>
    simp [iob_precedes, hB, hI, hE, hsp, hspB, hspI, hspE, hdl, iobMark]

/-- When the right label splits and its prefix is in the marker mapping,
every branch of iob_precedes returns a value. -/
theorem iob_precedes_ok_of_mark (left : Option Str) (rloc base pad : Str)
    (mark : Str) (hns : '-' ∉ rloc) (hmark : iobMark rloc = some mark)
    (hnp : ¬(left = some pad ∧ (rloc ++ '-' :: base) = pad)) :
    ∃ v, iob_precedes left (rloc ++ '-' :: base) pad = Except.ok v := by
  simp only [iob_precedes, if_neg hnp, splitDash_append rloc base hns, hmark]
  repeat' split
  all_goals exact ⟨_, rfl⟩

/-- Claim C10: iob_precedes returns a (joinable, label) pair without raising
whenever the right label has no dash or its prefix before the first dash is
B, I or E; for a right label with any other dash-free prefix (such as IE or
X), the marker-mapping lookup is an uncaught KeyError on that prefix, so
the call fails instead of returning. -/
theorem C10_join_policy_totality :
    (∀ (left : Option Str) (right pad : Str), '-' ∉ right →
        ∃ v, iob_precedes left right pad = Except.ok v) ∧
    (∀ (left : Option Str) (base pad : Str) (c : Char),
        c = 'B' ∨ c = 'I' ∨ c = 'E' →
        ∃ v, iob_precedes left (c :: '-' :: base) pad = Except.ok v) ∧
    (∀ (left : Option Str) (p base pad : Str), '-' ∉ p → '-' ∉ pad →
        p ≠ "B".toList → p ≠ "I".toList → p ≠ "E".toList →
        iob_precedes left (p ++ '-' :: base) pad =
          Except.error (PyErr.keyError p)) := by
  refine ⟨?_, ?_, ?_⟩
  · intro left right pad h
    by_cases hsc : left = some pad ∧ right = pad
    · exact ⟨(true, pad), by simp [iob_precedes, hsc]⟩
    · exact ⟨(false, right), by simp [iob_precedes, hsc, splitDash_eq_none right h]⟩
  · intro left base pad c hc
    by_cases hsc : left = some pad ∧ (c :: '-' :: base) = pad
    · exact ⟨(true, pad), by simp [iob_precedes, hsc]⟩
    · have hshape : (c :: '-' :: base) = [c] ++ '-' :: base := rfl
      rcases hc with rfl | rfl | rfl
      · rw [hshape]
        exact iob_precedes_ok_of_mark left ['B'] base pad ("IE-".toList)
          (by decide) (by decide) (hshape ▸ hsc)
      · rw [hshape]
        exact iob_precedes_ok_of_mark left ['I'] base pad ("IE-".toList)
          (by decide) (by decide) (hshape ▸ hsc)
      · rw [hshape]
        exact iob_precedes_ok_of_mark left ['E'] base pad []
          (by decide) (by decide) (hshape ▸ hsc)
  · intro left p base pad hp hpad hB hI hE
    have hne : (p ++ '-' :: base) ≠ pad := fun hh => hpad (hh ▸ (by simp))
    have hmark : iobMark p = none := by
      simp only [iobMark]
      rw [if_neg hB, if_neg hI, if_neg hE]
    simp [iob_precedes, hne, splitDash_append p base hp, hmark]

/-- Concrete instance discharging the hypotheses of claim C8. -/
theorem C8_same_base_joins_witness :
    ('-' ∉ "IE".toList) ∧ ('-' ∉ "<PAD>".toList) ∧
    iob_precedes (some ("IE".toList ++ '-' :: "PERSON".toList))
      ('E' :: '-' :: "PERSON".toList) ("<PAD>".toList) =
      Except.ok (true, "PERSON".toList) :=
  ⟨by decide, by decide,
   (C8_same_base_joins ("IE".toList) ("PERSON".toList) ("<PAD>".toList)
     (by decide) (by decide)).2.2⟩

/-- Concrete instance discharging the hypotheses of claim C10. -/
theorem C10_join_policy_totality_witness :
    ('-' ∉ "IE".toList) ∧ ('-' ∉ "<PAD>".toList) ∧
    ("IE".toList ≠ "B".toList) ∧ ("IE".toList ≠ "I".toList) ∧
    ("IE".toList ≠ "E".toList) ∧
    iob_precedes (some ("B-PERSON".toList))
      ("IE".toList ++ '-' :: "PERSON".toList) ("<PAD>".toList) =
      Except.error (PyErr.keyError ("IE".toList)) :=
  ⟨by decide, by decide, by decide, by decide, by decide,
   C10_join_policy_totality.2.2 (some ("B-PERSON".toList)) ("IE".toList)
     ("PERSON".toList) ("<PAD>".toList) (by decide) (by decide) (by decide)
     (by decide) (by decide)⟩

/-- The (start, end, label) triple of a recorded span. -/
def annKey (a : OutAnn) : Int × Int × Str := (a.start, a.stop, a.label)

/-- Binding a successful Except value applies the continuation. -/
theorem except_bind_ok {α β : Type} (a : α) (g : α → Except PyErr β) :
    (Except.ok a >>= g) = g a := rfl

/-- In non-iob mode the merge scan leaves a sublist of the open spans and a
new label that is either still unset or the scanned label itself. -/
theorem mergeLoop_false_spec (nv lbl : Str) (c : Int) :
    ∀ (anns : List OutAnn) (c2 : Int) (anns2 : List OutAnn) (nlo : Option Str),
      mergeLoop false nv lbl c anns = Except.ok (c2, anns2, nlo) →
      anns2.Sublist anns ∧ (nlo = none ∨ nlo = some lbl) := by
  intro anns
  induction anns with
  | nil =>
    intro c2 anns2 nlo h
    simp only [mergeLoop, Except.ok.injEq, Prod.mk.injEq] at h
    obtain ⟨-, h2, h3⟩ := h
    subst h2
    subst h3
    exact ⟨List.Sublist.refl _, Or.inl rfl⟩
  | cons item rest ih =>
    intro c2 anns2 nlo h
    simp only [mergeLoop, Bool.false_eq_true, if_false, reduceIte] at h
    split at h
    · simp only [Except.ok.injEq, Prod.mk.injEq] at h
      obtain ⟨-, h2, h3⟩ := h
      subst h2
      subst h3
      exact ⟨List.sublist_cons_self item rest, Or.inr rfl⟩
    · split at h
      · exact absurd h (by simp)
      · rename_i c3 r2 n2 heq
        simp only [Except.ok.injEq, Prod.mk.injEq] at h
        obtain ⟨-, h2, h3⟩ := h
        subst h2
        subst h3
        obtain ⟨hsub, hn⟩ := ih c3 r2 n2 heq
        refine ⟨List.Sublist.cons₂ item hsub, Or.inr ?_⟩
        rcases hn with rfl | rfl <;> rfl

/-- The dedup invariant: every recorded key is in the remembered range set
and the recorded keys are pairwise distinct. -/
def annInv (st : FESt) : Prop :=
  (∀ a ∈ st.anns, annKey a ∈ st.ranges) ∧
  st.anns.Pairwise (fun a b => annKey a ≠ annKey b)

/-- new_label or label collapses to the label when they agree. -/
theorem pyOr_self (lbl : Str) : pyOr (some lbl) lbl = lbl := by
  simp [pyOr]

/-- One non-iob label step preserves the dedup invariant: popped spans only
shrink the list, and a span is recorded only when its key is new, under a
key equal to the stored triple. -/
theorem labelStep_preserves_annInv (rawText nv : Str) (subtok : Bool)
    (ts te : List Int) (ml : Bool) (conf : Option Unit) (subStr lbl : Str)
    (st st2 : FESt) (hp : annInv st)
    (h : labelStep rawText nv subtok false ts te ml conf subStr st lbl =
      Except.ok st2) :
    annInv st2 := by
  simp only [labelStep, Bool.false_eq_true, false_and, if_false, reduceIte] at h
  split at h
  · exact absurd h (by simp)
  · rename_i c2 anns2 nl0 heq
    have hkey : anns2.Sublist st.anns ∧ (nl0 = none ∨ nl0 = some lbl) := by
      by_cases hl : lbl = nv
      · rw [if_neg (fun hc => hc hl)] at heq
        simp only [Except.ok.injEq, Prod.mk.injEq] at heq
        obtain ⟨-, h2, h3⟩ := heq
        subst h2
        subst h3
        exact ⟨List.Sublist.refl _, Or.inl rfl⟩
      · rw [if_pos hl] at heq
        exact mergeLoop_false_spec nv lbl _ st.anns c2 anns2 nl0 heq
    have hmem2 : ∀ a ∈ anns2, annKey a ∈ st.ranges :=
      fun a ha => hp.1 a (hkey.1.subset ha)
    have hpw2 : anns2.Pairwise (fun a b => annKey a ≠ annKey b) :=
      hp.2.sublist hkey.1
    split at h
    · simp only [Except.ok.injEq] at h
      subst h
      exact ⟨hmem2, hpw2⟩
    · split at h
      · exact absurd h (by simp)
      · rename_i aStart aEnd si2 ei2 heq2
        split at h
        · split at h
          · simp only [Except.ok.injEq] at h
            subst h
            exact ⟨hmem2, hpw2⟩
          · rename_i hlbl hnotmem
            simp only [Except.ok.injEq] at h
            subst h
            have heff : pyOr nl0 lbl = lbl := by
              rcases hkey.2 with rfl | rfl
              · rfl
              · exact pyOr_self lbl
            constructor
            · intro a ha
              rcases List.mem_append.mp ha with ha2 | hanew
              · exact List.mem_append_left _ (hmem2 a ha2)
              · rw [List.mem_singleton] at hanew
                subst hanew
                refine List.mem_append_right _ ?_
                simp [annKey, heff]
            · rw [List.pairwise_append]
              refine ⟨hpw2, List.pairwise_singleton _ _, ?_⟩
              intro a ha b hb
              rw [List.mem_singleton] at hb
              subst hb
              intro hcontra
              apply hnotmem
              have : annKey a ∈ st.ranges := hmem2 a ha
              rw [hcontra] at this
              simpa [annKey, heff] using this
        · simp only [Except.ok.injEq] at h
          subst h
          exact ⟨hmem2, hpw2⟩

/-- Folding a step that preserves a state predicate preserves it. -/
theorem foldlM_preserves {α : Type} (P : FESt → Prop)
    (f : FESt → α → Except PyErr FESt)
    (hf : ∀ s a s2, P s → f s a = Except.ok s2 → P s2) :
    ∀ (l : List α) (s s2 : FESt), P s → l.foldlM f s = Except.ok s2 → P s2 := by
  intro l
  induction l with
  | nil =>
    intro s s2 hs h
    simp only [List.foldlM_nil] at h
    cases h
    exact hs
  | cons a as ih =>
    intro s s2 hs h
    rw [List.foldlM_cons] at h
    cases hfa : f s a with
    | error e =>
      rw [hfa] at h
      exact absurd h (by simp [Bind.bind, Except.bind])
    | ok s1 =>
      rw [hfa, except_bind_ok] at h
      exact ih s1 s2 (hf s a s1 hs hfa) h

/-- One non-iob segment step preserves the dedup invariant. -/
theorem segStep_preserves_annInv (rawText nv : Str) (subtok : Bool)
    (ts te : List Int) (x : Str × SegLabel × Option Unit) (st st2 : FESt)
    (hp : annInv st)
    (h : segStep rawText nv subtok false ts te st x = Except.ok st2) :
    annInv st2 := by
  obtain ⟨s1, lab, cf⟩ := x
  cases lab with
  | single s =>
    exact labelStep_preserves_annInv rawText nv subtok ts te false cf s1 s
      st st2 hp h
  | multi ss =>
    exact foldlM_preserves annInv _
      (fun s3 a s4 hs3 ha =>
        labelStep_preserves_annInv rawText nv subtok ts te true cf s1 a
          s3 s4 hs3 ha)
      ss st st2 hp h

/-- Stable insertion permutes to consing. -/
theorem insertOutByStart_perm (x : OutAnn) (l : List OutAnn) :
    (insertOutByStart x l).Perm (x :: l) := by
  induction l with
  | nil => exact List.Perm.refl _
  | cons y ys ih =>
    by_cases hc : y.start ≤ x.start
    · simp only [insertOutByStart, if_pos hc]
      exact (ih.cons y).trans (List.Perm.swap x y ys)
    · simp only [insertOutByStart, if_neg hc]
      exact List.Perm.refl _

/-- The stable sort of the output permutes its input. -/
theorem sortOutByStart_perm (l : List OutAnn) : (sortOutByStart l).Perm l := by
  have key : ∀ (m : List OutAnn) (acc : List OutAnn),
      (List.foldl (fun acc2 x => insertOutByStart x acc2) acc m).Perm (acc ++ m) := by
    intro m
    induction m with
    | nil => intro acc; simp
    | cons x xs ih =>
      intro acc
      simp only [List.foldl_cons]
      refine (ih (insertOutByStart x acc)).trans ?_
      refine (((insertOutByStart_perm x acc).append_right xs).trans ?_)
      exact List.perm_middle.symm
  simpa [sortOutByStart] using key l []

/-- Claim C9 (amended): in non-iob mode the final per-document span list
holds no two entries with an identical (start, end, label) triple; an
attempt to record a raw key already recorded is silently skipped. (With
iob on, the final IE- strip can collapse two distinct raw keys onto the
same triple, which forced the non-iob amendment.) -/
theorem C9_dedup_amended (rawText : Str) (docSeq : List Str)
    (labelSeq : List SegLabel) (probSeq : Option (List (Option Unit)))
    (nv : Str) (subtok : Bool) (tokens : List (Int × Int))
    (anns : List OutAnn) (warns : List Str)
    (h : finetune_to_indico_sequence_doc rawText docSeq labelSeq probSeq nv
        subtok false tokens = Except.ok (anns, warns)) :
    anns.Pairwise (fun a b => annKey a ≠ annKey b) := by
  simp only [finetune_to_indico_sequence_doc, Bool.false_eq_true, if_false,
    reduceIte] at h
  split at h
  · exact absurd h (by simp)
  · rename_i st hfold
    have hinv : annInv st :=
      foldlM_preserves annInv _
        (fun s a s2 hs ha => segStep_preserves_annInv rawText nv subtok
          (tokens.map Prod.fst) (tokens.map Prod.snd) a s s2 hs ha)
        _ ⟨[], [], 0, 0, 0, []⟩ st ⟨by simp, by simp⟩ hfold
    simp only [Except.ok.injEq, Prod.mk.injEq] at h
    obtain ⟨h1, -⟩ := h
    subst h1
    exact ((sortOutByStart_perm st.anns).pairwise_iff
      (fun hab hba => hab hba.symm)).mpr hinv.2

/-- Concrete instance discharging the hypothesis of amended claim C9. -/
theorem C9_dedup_amended_witness :
    finetune_to_indico_sequence_doc ("ab".toList) ["ab".toList]
      [SegLabel.single ("X".toList)] none ("<PAD>".toList) true false [] =
      Except.ok ([⟨0, 2, "X".toList, "ab".toList, none⟩], []) ∧
    ([(⟨0, 2, "X".toList, "ab".toList, none⟩ : OutAnn)]).Pairwise
      (fun a b => annKey a ≠ annKey b) :=
  ⟨by decide,
   C9_dedup_amended ("ab".toList) ["ab".toList] [SegLabel.single ("X".toList)]
     none ("<PAD>".toList) true [] [⟨0, 2, "X".toList, "ab".toList, none⟩] []
     (by decide)⟩

/-- Claim C7: in iob mode, a non-filler annotation whose text has more than
two sub-tokens per the encoder boundaries expands to exactly three
sub-annotations, B- over the first sub-token, E- over the last, and one I-
covering everything strictly between, with offsets relative to the
annotation start; the three ranges tile the annotation range contiguously
(B starts at the annotation start, B ends where I starts, I ends where E
starts, and E ends at the annotation end). -/
theorem C7_iob_expansion (text nv : Str) (enc : Str → List Nat)
    (a : Ann) (l0 l1 l2 : Nat) (rest : List Nat)
    (hlab : a.label ≠ nv) (htext : a.text = none)
    (hse : a.start ≤ a.stop) (hstop : a.stop ≤ text.length)
    (henc : enc (pySliceN text a.start a.stop) = l0 :: l1 :: l2 :: rest) :
    iobExpandAnn text nv enc a =
      [⟨a.start, a.start + l0, 'B' :: '-' :: a.label,
        some (pySliceN (pySliceN text a.start a.stop) 0 l0)⟩,
       ⟨a.start + ((l0 :: l1 :: l2 :: rest).dropLast.getLastD 0),
        a.start + (pySliceN text a.start a.stop).length, 'E' :: '-' :: a.label,
        some (pySliceN (pySliceN text a.start a.stop)
          ((l0 :: l1 :: l2 :: rest).dropLast.getLastD 0)
          (pySliceN text a.start a.stop).length)⟩,
       ⟨a.start + l0, a.start + ((l0 :: l1 :: l2 :: rest).dropLast.getLastD 0),
        'I' :: '-' :: a.label,
        some (pySliceN (pySliceN text a.start a.stop) l0
          ((l0 :: l1 :: l2 :: rest).dropLast.getLastD 0))⟩] ∧
    a.start + (pySliceN text a.start a.stop).length = a.stop := by
  constructor
  · simp [iobExpandAnn, hlab, htext, henc, List.length_dropLast, List.getLastD]
  · have hlen : (pySliceN text a.start a.stop).length = a.stop - a.start := by
      simp [pySliceN]
      omega
    omega

/-- Concrete instance discharging the hypotheses of claim C7. -/
theorem C7_iob_expansion_witness :
    ("PERSON".toList ≠ "<PAD>".toList) ∧
    iobExpandAnn ("abcdefghijkl".toList) ("<PAD>".toList) (fun _ => [3, 7, 12])
      ⟨0, 12, "PERSON".toList, none⟩ =
      [⟨0, 3, "B-PERSON".toList, some ("abc".toList)⟩,
       ⟨7, 12, "E-PERSON".toList, some ("hijkl".toList)⟩,
       ⟨3, 7, "I-PERSON".toList, some ("defg".toList)⟩] :=
  ⟨by decide,
   by
     have h := C7_iob_expansion ("abcdefghijkl".toList) ("<PAD>".toList)
       (fun _ => [3, 7, 12]) ⟨0, 12, "PERSON".toList, none⟩ 3 7 12 []
       (by decide) rfl (by decide) (by decide) rfl
     rw [h.1]
     decide⟩
